import Mathlib

/-!
Verification of the daily sales aggregator `compute_daily_sales` from
`urbanmart_analysis.py`.

The source reads a CSV with `pd.read_csv(csv_path, parse_dates=[date_col])`,
adds a `line_revenue` column, applies optional inclusive date bounds, groups
by the (full, as-parsed) date value, reindexes to a daily range from the
minimum to the maximum surviving date, and derives running and rolling
metrics.  Here the already-parsed record list is the input (CSV loading is an
external collaborator); parsed timestamps are minutes since the epoch, so a
time-of-day component survives exactly as it does in the source; monetary
values are idealised as rationals.
-/

namespace UrbanMart

/-- One CSV row after `pd.read_csv(csv_path, parse_dates=[date_col])`:
`transaction_id`, the parsed `date` (a timestamp, in minutes since the
epoch — the source never strips a time-of-day component), `quantity`,
`unit_price` and `discount_applied`. -/
structure Record where
  transaction_id : Nat
  date : Nat
  quantity : Int
  unit_price : Rat
  discount_applied : Rat
deriving DecidableEq, Repr

/-- `df['line_revenue'] = df['quantity'] * df['unit_price'] - df['discount_applied']`. -/
def lineRevenue (r : Record) : Rat :=
  r.quantity * r.unit_price - r.discount_applied

/-- A Python value passed as `start_date` or `end_date`.  The source tests it
with `if start_date:` (Python truthiness) and, only when truthy, converts it
with `pd.to_datetime`.  We model an argument by its truthiness together with
the timestamp `pd.to_datetime` would produce; the timestamp of a falsy
argument is never consulted by the source. -/
structure DateArg where
  isTruthy : Bool
  ts : Nat
deriving DecidableEq, Repr

/-- Python `None`: falsy, so the corresponding bound is skipped. -/
def DateArg.ofNone : DateArg := ⟨false, 0⟩

/-- A Python integer argument: falsy exactly when it is `0`;
`pd.to_datetime` reads a truthy integer as an offset from the epoch. -/
def DateArg.ofInt (n : Nat) : DateArg := ⟨n != 0, n⟩

/-- A Python string argument: falsy exactly when empty; `t` is the timestamp
`pd.to_datetime` parses it to. -/
def DateArg.ofStr (s : String) (t : Nat) : DateArg := ⟨s != "", t⟩

/-- The two bound filters of the source:
`if start_date: df = df[df[date_col] >= pd.to_datetime(start_date)]` then
`if end_date: df = df[df[date_col] <= pd.to_datetime(end_date)]`. -/
def filterRecords (records : List Record) (s e : DateArg) : List Record :=
  let df1 := if s.isTruthy then records.filter (fun r => decide (s.ts ≤ r.date)) else records
  if e.isTruthy then df1.filter (fun r => decide (r.date ≤ e.ts)) else df1

/-- `grouped.index.min()`: least element of a nonempty list of timestamps
(`0` stands in for the `NaT` the source gets on an empty index — that branch
is the error path and the value is never used to build output). -/
def listMin : List Nat → Nat
  | [] => 0
  | [a] => a
  | a :: b :: t => min a (listMin (b :: t))

/-- `grouped.index.max()`, mirror of `listMin`. -/
def listMax : List Nat → Nat
  | [] => 0
  | [a] => a
  | a :: b :: t => max a (listMax (b :: t))

/-- The calendar day of a timestamp (a day is 1440 minutes). -/
def dayOf (t : Nat) : Nat := t / 1440

/-- `grouped.index.day_name()`: the epoch day, 1970-01-01, was a Thursday. -/
def dayName (t : Nat) : String :=
  ["Thursday", "Friday", "Saturday", "Sunday",
   "Monday", "Tuesday", "Wednesday"].getD (dayOf t % 7) ""

/-- `pd.date_range(lo, hi, freq='D')`: the timestamps `lo, lo + 1 day, ...`
that stay `≤ hi`.  Note the step keeps whatever time-of-day `lo` carries. -/
def dateRange (lo hi : Nat) : List Nat :=
  if lo ≤ hi then (List.range ((hi - lo) / 1440 + 1)).map (fun k => lo + 1440 * k) else []

/-- The `daily_revenue` entry of
`df.groupby(date_col).agg(daily_revenue=('line_revenue','sum'))` after
`reindex(full_index, fill_value=0.0)`, read at index timestamp `t`: the sum
of `line_revenue` over records whose date equals `t` exactly, which is the
group's sum when `t` is a group key and the `0.0` fill when no record has
date `t`. -/
def revenueOn (df : List Record) (t : Nat) : Rat :=
  ((df.filter (fun r => decide (r.date = t))).map lineRevenue).sum

/-- The `daily_transactions` entry at index timestamp `t`:
`('transaction_id','nunique')`, the number of distinct transaction ids among
records dated exactly `t`, and the `0` fill when there are none. -/
def ntransOn (df : List Record) (t : Nat) : Nat :=
  ((df.filter (fun r => decide (r.date = t))).map Record.transaction_id).dedup.length

/-- `Series.cumsum()` as a left scan with accumulator `acc`. -/
def cumsumFrom (acc : Rat) : List Rat → List Rat
  | [] => []
  | x :: t => (acc + x) :: cumsumFrom (acc + x) t

/-- `grouped['daily_revenue'].cumsum()`. -/
def cumsum (l : List Rat) : List Rat := cumsumFrom 0 l

/-- `Series.rolling(w, min_periods=1).mean()`: entry `i` is the mean of the
trailing window of the last `min (i+1) w` entries ending at entry `i` (the
window shrinks at the start, with no look-ahead). -/
def rollingMean (w : Nat) (l : List Rat) : List Rat :=
  (List.range l.length).map (fun i =>
    ((l.drop (i + 1 - w)).take (min (i + 1) w)).sum / ((min (i + 1) w : Nat) : Rat))

/-- One output row of `compute_daily_sales`: the index timestamp plus the
five derived columns. -/
structure DailyRow where
  date : Nat
  daily_revenue : Rat
  daily_transactions : Nat
  cumulative_revenue : Rat
  moving_avg_7d : Rat
  day_of_week : String
deriving DecidableEq, Repr, Inhabited

/-- `grouped.index.min()` over the post-filter records. -/
def spanLo (df : List Record) : Nat := listMin (df.map Record.date)

/-- `grouped.index.max()` over the post-filter records. -/
def spanHi (df : List Record) : Nat := listMax (df.map Record.date)

/-- The reindexed `daily_revenue` column, one entry per `full_index` stamp. -/
def revSeq (df : List Record) : List Rat :=
  (dateRange (spanLo df) (spanHi df)).map (revenueOn df)

/-- Rows of the returned frame: for each position `i` of
`full_index = pd.date_range(grouped.index.min(), grouped.index.max(), freq='D')`,
the reindexed aggregates at that stamp together with the `cumsum`, rolling
mean and day-name columns computed over the reindexed frame. -/
def aggregate (df : List Record) : List DailyRow :=
  (List.range (dateRange (spanLo df) (spanHi df)).length).map (fun i =>
    { date := (dateRange (spanLo df) (spanHi df)).getD i 0
      daily_revenue := (revSeq df).getD i 0
      daily_transactions := ntransOn df ((dateRange (spanLo df) (spanHi df)).getD i 0)
      cumulative_revenue := (cumsum (revSeq df)).getD i 0
      moving_avg_7d := (rollingMean 7 (revSeq df)).getD i 0
      day_of_week := dayName ((dateRange (spanLo df) (spanHi df)).getD i 0) })

/-- The failure mode of the aggregator.  When the post-filter record set is
empty the source reaches `pd.date_range(NaT, NaT)` (the min and max of an
empty index), which raises instead of returning a frame; the specification
names this failure `EmptyDatasetError`. -/
inductive AnalysisError where
  | EmptyDatasetError
deriving DecidableEq, Repr

/-- `compute_daily_sales(csv_path, start_date=None, end_date=None)` over the
already-parsed record list: filter by the truthy bounds, then either fail on
an empty post-filter set or build the daily frame. -/
def compute_daily_sales (records : List Record) (start_date end_date : DateArg) :
    Except AnalysisError (List DailyRow) :=
  let df := filterRecords records start_date end_date
  if df.isEmpty then .error .EmptyDatasetError else .ok (aggregate df)

example :
    compute_daily_sales
      [⟨1, 0, 2, 10, 0⟩, ⟨2, 2880, 1, 5, 1⟩] DateArg.ofNone DateArg.ofNone =
    .ok [⟨0, 20, 1, 20, 20, "Thursday"⟩,
         ⟨1440, 0, 0, 20, 10, "Friday"⟩,
         ⟨2880, 4, 1, 24, 8, "Saturday"⟩] := by with_unfolding_all rfl

theorem getD_map_range {α : Type} (f : Nat → α) (n i : Nat) (d : α) (h : i < n) :
    ((List.range n).map f).getD i d = f i := by
  rw [List.getD_eq_getElem?_getD, List.getElem?_map, List.getElem?_range h]
  rfl

theorem range_map_getD {α : Type} (l : List α) (d : α) :
    (List.range l.length).map (fun i => l.getD i d) = l := by
  apply List.ext_getElem
  · simp
  · intro i h1 h2
    simp only [List.getElem_map, List.getElem_range]
    rw [List.getD_eq_getElem?_getD, List.getElem?_eq_getElem h2]
    rfl

theorem listMin_le (l : List Nat) : ∀ x ∈ l, listMin l ≤ x := by
  induction l with
  | nil => intro x hx; cases hx
  | cons a t ih =>
    cases t with
    | nil =>
      intro x hx
      have hx2 : x = a := by simpa using hx
      subst hx2
      exact le_of_eq rfl
    | cons b t2 =>
      intro x hx
      rcases List.mem_cons.mp hx with h | h
      · subst h
        exact min_le_left _ _
      · exact le_trans (min_le_right _ _) (ih x h)

theorem listMin_mem (l : List Nat) (h : l ≠ []) : listMin l ∈ l := by
  induction l with
  | nil => exact absurd rfl h
  | cons a t ih =>
    cases t with
    | nil => simp [listMin]
    | cons b t2 =>
      show min a (listMin (b :: t2)) ∈ a :: b :: t2
      rcases le_total a (listMin (b :: t2)) with h1 | h1
      · rw [min_eq_left h1]
        exact List.mem_cons_self _ _
      · rw [min_eq_right h1]
        exact List.mem_cons_of_mem _ (ih (by simp))

theorem listMax_ge (l : List Nat) : ∀ x ∈ l, x ≤ listMax l := by
  induction l with
  | nil => intro x hx; cases hx
  | cons a t ih =>
    cases t with
    | nil =>
      intro x hx
      have hx2 : x = a := by simpa using hx
      subst hx2
      exact le_of_eq rfl
    | cons b t2 =>
      intro x hx
      rcases List.mem_cons.mp hx with h | h
      · subst h
        exact le_max_left _ _
      · exact le_trans (ih x h) (le_max_right _ _)

theorem listMax_mem (l : List Nat) (h : l ≠ []) : listMax l ∈ l := by
  induction l with
  | nil => exact absurd rfl h
  | cons a t ih =>
    cases t with
    | nil => simp [listMax]
    | cons b t2 =>
      show max a (listMax (b :: t2)) ∈ a :: b :: t2
      rcases le_total a (listMax (b :: t2)) with h1 | h1
      · rw [max_eq_right h1]
        exact List.mem_cons_of_mem _ (ih (by simp))
      · rw [max_eq_left h1]
        exact List.mem_cons_self _ _

theorem length_dateRange (lo hi : Nat) (h : lo ≤ hi) :
    (dateRange lo hi).length = (hi - lo) / 1440 + 1 := by
  simp [dateRange, h]

theorem dateRange_getD (lo hi i : Nat) (h : lo ≤ hi) (hik : i < (hi - lo) / 1440 + 1) :
    (dateRange lo hi).getD i 0 = lo + 1440 * i := by
  rw [dateRange, if_pos h]
  exact getD_map_range _ _ _ _ hik

theorem mem_filterRecords (records : List Record) (s e : DateArg) (r : Record) :
    r ∈ filterRecords records s e ↔
      r ∈ records ∧ (s.isTruthy = true → s.ts ≤ r.date) ∧
        (e.isTruthy = true → r.date ≤ e.ts) := by
  unfold filterRecords
  by_cases hs : s.isTruthy <;> by_cases he : e.isTruthy <;>
    simp [hs, he, List.mem_filter, and_assoc]
  tauto

theorem filterRecords_falsy (records : List Record) (s e : DateArg)
    (hs : s.isTruthy = false) (he : e.isTruthy = false) :
    filterRecords records s e = records := by
  unfold filterRecords
  simp [hs, he]

theorem filterRecords_subset (records : List Record) (s e : DateArg) :
    ∀ r ∈ filterRecords records s e, r ∈ records :=
  fun r hr => ((mem_filterRecords records s e r).mp hr).1

theorem cumsumFrom_getD (l : List Rat) : ∀ (acc : Rat) (n : Nat), n < l.length →
    (cumsumFrom acc l).getD n 0 = acc + (l.take (n + 1)).sum := by
  induction l with
  | nil => intro acc n h; simp at h
  | cons x t ih =>
    intro acc n h
    cases n with
    | zero => simp [cumsumFrom]
    | succ m =>
      have hm : m < t.length := by simpa using h
      simp only [cumsumFrom, List.getD_cons_succ]
      rw [ih (acc + x) m hm, List.take_succ_cons, List.sum_cons]
      ring

theorem cumsum_getD (l : List Rat) (n : Nat) (h : n < l.length) :
    (cumsum l).getD n 0 = (l.take (n + 1)).sum := by
  have := cumsumFrom_getD l 0 n h
  simpa [cumsum] using this

theorem rollingMean_getD (w : Nat) (l : List Rat) (i : Nat) (h : i < l.length) :
    (rollingMean w l).getD i 0 =
      ((l.drop (i + 1 - w)).take (min (i + 1) w)).sum / ((min (i + 1) w : Nat) : Rat) := by
  unfold rollingMean
  exact getD_map_range _ _ _ _ h

theorem sum_drop_take (l : List Rat) (a : Nat) :
    ∀ k, a + k ≤ l.length →
      ((l.drop a).take k).sum = ∑ j ∈ Finset.Ico a (a + k), l.getD j 0 := by
  intro k
  induction k with
  | zero => simp
  | succ m ih =>
    intro h
    have hm : a + m ≤ l.length := by omega
    have hlt : a + m < l.length := by omega
    rw [List.take_succ, List.sum_append, ih hm]
    have h1 : (l.drop a)[m]? = l[a + m]? := by
      rw [List.getElem?_drop]
    rw [h1, List.getElem?_eq_getElem hlt]
    have h2 : a + (m + 1) = (a + m) + 1 := by omega
    rw [h2, Finset.sum_Ico_succ_top (Nat.le_add_right a m)]
    rw [List.getD_eq_getElem?_getD, List.getElem?_eq_getElem hlt]
    simp

theorem window_sum_eq (l : List Rat) (i : Nat) (h : i < l.length) :
    ((l.drop (i + 1 - 7)).take (min (i + 1) 7)).sum =
      ∑ j ∈ Finset.Icc (i - 6) i, l.getD j 0 := by
  have h1 : i + 1 - 7 = i - 6 := by omega
  have h2 : (i - 6) + min (i + 1) 7 = i + 1 := by omega
  rw [h1, sum_drop_take l (i - 6) (min (i + 1) 7) (by omega), h2, Nat.Ico_succ_right]

theorem length_aggregate (df : List Record) :
    (aggregate df).length = (dateRange (spanLo df) (spanHi df)).length := by
  simp [aggregate]

theorem aggregate_getD (df : List Record) (i : Nat)
    (h : i < (dateRange (spanLo df) (spanHi df)).length) :
    (aggregate df).getD i default =
      { date := (dateRange (spanLo df) (spanHi df)).getD i 0
        daily_revenue := (revSeq df).getD i 0
        daily_transactions := ntransOn df ((dateRange (spanLo df) (spanHi df)).getD i 0)
        cumulative_revenue := (cumsum (revSeq df)).getD i 0
        moving_avg_7d := (rollingMean 7 (revSeq df)).getD i 0
        day_of_week := dayName ((dateRange (spanLo df) (spanHi df)).getD i 0) } := by
  unfold aggregate
  exact getD_map_range _ _ _ _ h

theorem length_revSeq (df : List Record) :
    (revSeq df).length = (dateRange (spanLo df) (spanHi df)).length := by
  simp [revSeq]

theorem revSeq_getD (df : List Record) (i : Nat)
    (h : i < (dateRange (spanLo df) (spanHi df)).length) :
    (revSeq df).getD i 0 = revenueOn df ((dateRange (spanLo df) (spanHi df)).getD i 0) := by
  unfold revSeq
  rw [List.getD_eq_getElem?_getD, List.getElem?_map, List.getElem?_eq_getElem h]
  rw [List.getD_eq_getElem?_getD, List.getElem?_eq_getElem h]
  rfl

theorem map_daily_revenue_aggregate (df : List Record) :
    (aggregate df).map DailyRow.daily_revenue = revSeq df := by
  unfold aggregate
  rw [List.map_map]
  have hc : (DailyRow.daily_revenue ∘ fun i =>
      ({ date := (dateRange (spanLo df) (spanHi df)).getD i 0
         daily_revenue := (revSeq df).getD i 0
         daily_transactions := ntransOn df ((dateRange (spanLo df) (spanHi df)).getD i 0)
         cumulative_revenue := (cumsum (revSeq df)).getD i 0
         moving_avg_7d := (rollingMean 7 (revSeq df)).getD i 0
         day_of_week := dayName ((dateRange (spanLo df) (spanHi df)).getD i 0) } : DailyRow)) =
      fun i => (revSeq df).getD i 0 := rfl
  rw [hc, ← length_revSeq df, range_map_getD]

theorem spanLo_le_spanHi (df : List Record) (h : df ≠ []) : spanLo df ≤ spanHi df := by
  have hne : df.map Record.date ≠ [] := by simpa using h
  exact listMin_le (df.map Record.date) _ (listMax_mem _ hne)

theorem spanLo_mem (df : List Record) (h : df ≠ []) : ∃ r ∈ df, r.date = spanLo df := by
  have hne : df.map Record.date ≠ [] := by simpa using h
  exact List.mem_map.mp (listMin_mem _ hne)

theorem spanHi_mem (df : List Record) (h : df ≠ []) : ∃ r ∈ df, r.date = spanHi df := by
  have hne : df.map Record.date ≠ [] := by simpa using h
  exact List.mem_map.mp (listMax_mem _ hne)

theorem compute_ok (records : List Record) (s e : DateArg)
    (h : filterRecords records s e ≠ []) :
    compute_daily_sales records s e = .ok (aggregate (filterRecords records s e)) := by
  unfold compute_daily_sales
  rw [if_neg (by simpa [List.isEmpty_iff] using h)]

theorem compute_ok_inv (records : List Record) (s e : DateArg) (out : List DailyRow)
    (h : compute_daily_sales records s e = .ok out) :
    filterRecords records s e ≠ [] ∧ out = aggregate (filterRecords records s e) := by
  unfold compute_daily_sales at h
  by_cases hh : (filterRecords records s e).isEmpty
  · rw [if_pos hh] at h
    cases h
  · rw [if_neg hh] at h
    refine ⟨by simpa [List.isEmpty_iff] using hh, ?_⟩
    injection h with h2
    exact h2.symm

theorem filter_day_eq (df : List Record) (t : Nat)
    (hal : ∀ r ∈ df, r.date % 1440 = 0) (ht : t % 1440 = 0) :
    df.filter (fun r => decide (dayOf r.date = dayOf t)) =
      df.filter (fun r => decide (r.date = t)) := by
  apply List.filter_congr
  intro r hr
  have h1 := hal r hr
  rw [decide_eq_decide]
  unfold dayOf
  omega

theorem aggregate_date_aligned (records : List Record) (s e : DateArg)
    (hne : filterRecords records s e ≠ [])
    (hal : ∀ r ∈ records, r.date % 1440 = 0) (i : Nat)
    (hi : i < (dateRange (spanLo (filterRecords records s e))
        (spanHi (filterRecords records s e))).length) :
    ((dateRange (spanLo (filterRecords records s e))
        (spanHi (filterRecords records s e))).getD i 0) % 1440 = 0 := by
  have hlh := spanLo_le_spanHi _ hne
  rw [dateRange_getD _ _ _ hlh (by rwa [length_dateRange _ _ hlh] at hi)]
  obtain ⟨rlo, hrlo, hrld⟩ := spanLo_mem _ hne
  have := hal rlo (filterRecords_subset records s e rlo hrlo)
  omega

/-- C1: for every non-empty post-filter record set (whose dates are calendar
dates, i.e. midnight-aligned timestamps, as the data model prescribes),
`compute_daily_sales` succeeds and its output has exactly one row per
calendar day in the closed span from the earliest to the latest post-filter
date — `dn - d0 + 1` rows, ascending, with no missing days: row `i` sits at
exactly `i` days after the earliest date. -/
theorem daily_sales_full_span (records : List Record) (s e : DateArg)
    (hne : filterRecords records s e ≠ [])
    (hal : ∀ r ∈ records, r.date % 1440 = 0) :
    ∃ out, compute_daily_sales records s e = .ok out ∧
      out.length =
        dayOf (spanHi (filterRecords records s e)) -
          dayOf (spanLo (filterRecords records s e)) + 1 ∧
      ∀ i, i < out.length →
        (out.getD i default).date = spanLo (filterRecords records s e) + 1440 * i := by
  refine ⟨aggregate (filterRecords records s e), compute_ok records s e hne, ?_, ?_⟩
  · have hlh := spanLo_le_spanHi _ hne
    obtain ⟨rlo, hrlo, hrld⟩ := spanLo_mem _ hne
    obtain ⟨rhi, hrhi, hrhd⟩ := spanHi_mem _ hne
    have hlo : spanLo (filterRecords records s e) % 1440 = 0 := by
      rw [← hrld]
      exact hal rlo (filterRecords_subset records s e rlo hrlo)
    have hhi : spanHi (filterRecords records s e) % 1440 = 0 := by
      rw [← hrhd]
      exact hal rhi (filterRecords_subset records s e rhi hrhi)
    rw [length_aggregate, length_dateRange _ _ hlh]
    unfold dayOf
    omega
  · intro i hi
    have hlh := spanLo_le_spanHi _ hne
    have hi2 : i < (dateRange (spanLo (filterRecords records s e))
        (spanHi (filterRecords records s e))).length := by
      rwa [length_aggregate] at hi
    rw [aggregate_getD _ i hi2]
    exact dateRange_getD _ _ _ hlh (by rwa [length_dateRange _ _ hlh] at hi2)

/-- C1 witness at the spec's own example: two records three days apart. -/
theorem daily_sales_full_span_witness :
    (filterRecords [⟨1, 0, 2, 10, 0⟩, ⟨2, 2880, 1, 5, 1⟩]
        DateArg.ofNone DateArg.ofNone ≠ []) ∧
    (∀ r ∈ ([⟨1, 0, 2, 10, 0⟩, ⟨2, 2880, 1, 5, 1⟩] : List Record), r.date % 1440 = 0) ∧
    (∃ out, compute_daily_sales [⟨1, 0, 2, 10, 0⟩, ⟨2, 2880, 1, 5, 1⟩]
        DateArg.ofNone DateArg.ofNone = .ok out ∧
      out.length =
        dayOf (spanHi (filterRecords [⟨1, 0, 2, 10, 0⟩, ⟨2, 2880, 1, 5, 1⟩]
            DateArg.ofNone DateArg.ofNone)) -
          dayOf (spanLo (filterRecords [⟨1, 0, 2, 10, 0⟩, ⟨2, 2880, 1, 5, 1⟩]
            DateArg.ofNone DateArg.ofNone)) + 1 ∧
      ∀ i, i < out.length →
        (out.getD i default).date =
          spanLo (filterRecords [⟨1, 0, 2, 10, 0⟩, ⟨2, 2880, 1, 5, 1⟩]
            DateArg.ofNone DateArg.ofNone) + 1440 * i) :=
  ⟨by with_unfolding_all decide, by decide,
   daily_sales_full_span [⟨1, 0, 2, 10, 0⟩, ⟨2, 2880, 1, 5, 1⟩]
     DateArg.ofNone DateArg.ofNone (by with_unfolding_all decide) (by decide)⟩

/-- C2: in every output of `compute_daily_sales`, for every 0-based day
index `i`, `moving_avg_7d` at row `i` is the arithmetic mean of
`daily_revenue` over indices `max (0, i-6) .. i` inclusive (a trailing
window that shrinks at the start: `min (i+1) 7` observations, never
looking ahead), and is defined for every row. -/
theorem moving_avg_trailing_window (records : List Record) (s e : DateArg)
    (out : List DailyRow)
    (hok : compute_daily_sales records s e = .ok out) :
    ∀ i, i < out.length →
      (out.getD i default).moving_avg_7d =
        (∑ j ∈ Finset.Icc (i - 6) i, (out.map DailyRow.daily_revenue).getD j 0) /
          ((min (i + 1) 7 : Nat) : Rat) := by
  obtain ⟨hne, hout⟩ := compute_ok_inv records s e out hok
  subst hout
  intro i hi
  have hi2 : i < (dateRange (spanLo (filterRecords records s e))
      (spanHi (filterRecords records s e))).length := by
    rwa [length_aggregate] at hi
  have hi3 : i < (revSeq (filterRecords records s e)).length := by
    rwa [length_revSeq]
  rw [map_daily_revenue_aggregate, aggregate_getD _ i hi2]
  show (rollingMean 7 (revSeq (filterRecords records s e))).getD i 0 = _
  rw [rollingMean_getD 7 _ i hi3, window_sum_eq _ i hi3]

/-- C2 witness: the spec's example, where the means are 20, 10 and 8. -/
theorem moving_avg_trailing_window_witness :
    (compute_daily_sales [⟨1, 0, 2, 10, 0⟩, ⟨2, 2880, 1, 5, 1⟩]
        DateArg.ofNone DateArg.ofNone =
      .ok [⟨0, 20, 1, 20, 20, "Thursday"⟩, ⟨1440, 0, 0, 20, 10, "Friday"⟩,
           ⟨2880, 4, 1, 24, 8, "Saturday"⟩]) ∧
    (∀ i, i < ([⟨0, 20, 1, 20, 20, "Thursday"⟩, ⟨1440, 0, 0, 20, 10, "Friday"⟩,
        ⟨2880, 4, 1, 24, 8, "Saturday"⟩] : List DailyRow).length →
      (([⟨0, 20, 1, 20, 20, "Thursday"⟩, ⟨1440, 0, 0, 20, 10, "Friday"⟩,
          ⟨2880, 4, 1, 24, 8, "Saturday"⟩] : List DailyRow).getD i default).moving_avg_7d =
        (∑ j ∈ Finset.Icc (i - 6) i,
            (([⟨0, 20, 1, 20, 20, "Thursday"⟩, ⟨1440, 0, 0, 20, 10, "Friday"⟩,
               ⟨2880, 4, 1, 24, 8, "Saturday"⟩] : List DailyRow).map
              DailyRow.daily_revenue).getD j 0) /
          ((min (i + 1) 7 : Nat) : Rat)) :=
  ⟨by with_unfolding_all rfl,
   moving_avg_trailing_window [⟨1, 0, 2, 10, 0⟩, ⟨2, 2880, 1, 5, 1⟩]
     DateArg.ofNone DateArg.ofNone _ (by with_unfolding_all rfl)⟩

/-- C3: in every output of `compute_daily_sales`, `cumulative_revenue` at
row `n` is the sum of `daily_revenue` over rows `0 .. n`; consequently, if
every `daily_revenue` value is nonnegative then `cumulative_revenue` is
non-decreasing in the row index. -/
theorem cumulative_running_sum (records : List Record) (s e : DateArg)
    (out : List DailyRow)
    (hok : compute_daily_sales records s e = .ok out) :
    (∀ n, n < out.length →
      (out.getD n default).cumulative_revenue =
        ((out.map DailyRow.daily_revenue).take (n + 1)).sum) ∧
    ((∀ r ∈ out, 0 ≤ r.daily_revenue) →
      ∀ m n, m ≤ n → n < out.length →
        (out.getD m default).cumulative_revenue ≤
          (out.getD n default).cumulative_revenue) := by
  obtain ⟨hne, hout⟩ := compute_ok_inv records s e out hok
  subst hout
  have key : ∀ n, n < (aggregate (filterRecords records s e)).length →
      ((aggregate (filterRecords records s e)).getD n default).cumulative_revenue =
        ((revSeq (filterRecords records s e)).take (n + 1)).sum := by
    intro n hn
    have hn2 : n < (dateRange (spanLo (filterRecords records s e))
        (spanHi (filterRecords records s e))).length := by
      rwa [length_aggregate] at hn
    rw [aggregate_getD _ n hn2]
    show (cumsum (revSeq (filterRecords records s e))).getD n 0 = _
    exact cumsum_getD _ n (by rwa [length_revSeq])
  constructor
  · intro n hn
    rw [map_daily_revenue_aggregate]
    exact key n hn
  · intro hpos m n hmn hn
    have hm : m < (aggregate (filterRecords records s e)).length := lt_of_le_of_lt hmn hn
    rw [key m hm, key n hn]
    have hsplit : (revSeq (filterRecords records s e)).take (n + 1) =
        (revSeq (filterRecords records s e)).take (m + 1) ++
          ((revSeq (filterRecords records s e)).drop (m + 1)).take (n - m) := by
      rw [show n + 1 = (m + 1) + (n - m) by omega, List.take_add]
    rw [hsplit, List.sum_append]
    have hnn : 0 ≤ (((revSeq (filterRecords records s e)).drop (m + 1)).take (n - m)).sum := by
      apply List.sum_nonneg
      intro x hx
      have hx2 : x ∈ revSeq (filterRecords records s e) :=
        List.drop_subset _ _ (List.take_subset _ _ hx)
      rw [← map_daily_revenue_aggregate] at hx2
      obtain ⟨r, hr, hrx⟩ := List.mem_map.mp hx2
      rw [← hrx]
      exact hpos r hr
    linarith

/-- C3 witness: the spec's example, cumulative revenues 20, 20, 24. -/
theorem cumulative_running_sum_witness :
    (compute_daily_sales [⟨1, 0, 2, 10, 0⟩, ⟨2, 2880, 1, 5, 1⟩]
        DateArg.ofNone DateArg.ofNone =
      .ok [⟨0, 20, 1, 20, 20, "Thursday"⟩, ⟨1440, 0, 0, 20, 10, "Friday"⟩,
           ⟨2880, 4, 1, 24, 8, "Saturday"⟩]) ∧
    (∀ n, n < ([⟨0, 20, 1, 20, 20, "Thursday"⟩, ⟨1440, 0, 0, 20, 10, "Friday"⟩,
        ⟨2880, 4, 1, 24, 8, "Saturday"⟩] : List DailyRow).length →
      (([⟨0, 20, 1, 20, 20, "Thursday"⟩, ⟨1440, 0, 0, 20, 10, "Friday"⟩,
          ⟨2880, 4, 1, 24, 8, "Saturday"⟩] : List DailyRow).getD n default).cumulative_revenue =
        ((([⟨0, 20, 1, 20, 20, "Thursday"⟩, ⟨1440, 0, 0, 20, 10, "Friday"⟩,
            ⟨2880, 4, 1, 24, 8, "Saturday"⟩] : List DailyRow).map
          DailyRow.daily_revenue).take (n + 1)).sum) :=
  ⟨by with_unfolding_all rfl,
   (cumulative_running_sum [⟨1, 0, 2, 10, 0⟩, ⟨2, 2880, 1, 5, 1⟩]
     DateArg.ofNone DateArg.ofNone _ (by with_unfolding_all rfl)).1⟩

/-- C4: in every output of `compute_daily_sales` over calendar-dated
records, each row's `daily_revenue` is the sum, over all post-filter records
whose calendar day equals the row's day, of
`quantity * unit_price - discount_applied` (`lineRevenue`); no
non-negativity check is applied to the per-line values, which is why the
statement carries no sign hypothesis on them. -/
theorem daily_revenue_day_sum (records : List Record) (s e : DateArg)
    (out : List DailyRow)
    (hal : ∀ r ∈ records, r.date % 1440 = 0)
    (hok : compute_daily_sales records s e = .ok out) :
    ∀ i, i < out.length →
      (out.getD i default).daily_revenue =
        (((filterRecords records s e).filter
            (fun r => decide (dayOf r.date = dayOf ((out.getD i default).date)))).map
          lineRevenue).sum := by
  obtain ⟨hne, hout⟩ := compute_ok_inv records s e out hok
  subst hout
  intro i hi
  have hi2 : i < (dateRange (spanLo (filterRecords records s e))
      (spanHi (filterRecords records s e))).length := by
    rwa [length_aggregate] at hi
  rw [aggregate_getD _ i hi2]
  show (revSeq (filterRecords records s e)).getD i 0 = _
  rw [revSeq_getD _ i hi2]
  have halt : ∀ r ∈ filterRecords records s e, r.date % 1440 = 0 :=
    fun r hr => hal r (filterRecords_subset records s e r hr)
  rw [filter_day_eq _ _ halt (aggregate_date_aligned records s e hne hal i hi2)]
  rfl

/-- C4 witness: the spec's example; day revenues 20, 0 and 4. -/
theorem daily_revenue_day_sum_witness :
    (∀ r ∈ ([⟨1, 0, 2, 10, 0⟩, ⟨2, 2880, 1, 5, 1⟩] : List Record), r.date % 1440 = 0) ∧
    (compute_daily_sales [⟨1, 0, 2, 10, 0⟩, ⟨2, 2880, 1, 5, 1⟩]
        DateArg.ofNone DateArg.ofNone =
      .ok [⟨0, 20, 1, 20, 20, "Thursday"⟩, ⟨1440, 0, 0, 20, 10, "Friday"⟩,
           ⟨2880, 4, 1, 24, 8, "Saturday"⟩]) ∧
    (∀ i, i < ([⟨0, 20, 1, 20, 20, "Thursday"⟩, ⟨1440, 0, 0, 20, 10, "Friday"⟩,
        ⟨2880, 4, 1, 24, 8, "Saturday"⟩] : List DailyRow).length →
      (([⟨0, 20, 1, 20, 20, "Thursday"⟩, ⟨1440, 0, 0, 20, 10, "Friday"⟩,
          ⟨2880, 4, 1, 24, 8, "Saturday"⟩] : List DailyRow).getD i default).daily_revenue =
        (((filterRecords [⟨1, 0, 2, 10, 0⟩, ⟨2, 2880, 1, 5, 1⟩]
            DateArg.ofNone DateArg.ofNone).filter
            (fun r => decide (dayOf r.date = dayOf
              ((([⟨0, 20, 1, 20, 20, "Thursday"⟩, ⟨1440, 0, 0, 20, 10, "Friday"⟩,
                  ⟨2880, 4, 1, 24, 8, "Saturday"⟩] : List DailyRow).getD i
                default).date)))).map lineRevenue).sum) :=
  ⟨by decide, by with_unfolding_all rfl,
   daily_revenue_day_sum [⟨1, 0, 2, 10, 0⟩, ⟨2, 2880, 1, 5, 1⟩]
     DateArg.ofNone DateArg.ofNone _ (by decide) (by with_unfolding_all rfl)⟩

/-- C5: in every output of `compute_daily_sales` over calendar-dated
records, each row's `daily_transactions` is the number of distinct
`transaction_id` values among the post-filter records of that calendar day,
so two line items sharing a `transaction_id` on the same day contribute one,
not two. -/
theorem daily_transactions_distinct (records : List Record) (s e : DateArg)
    (out : List DailyRow)
    (hal : ∀ r ∈ records, r.date % 1440 = 0)
    (hok : compute_daily_sales records s e = .ok out) :
    ∀ i, i < out.length →
      (out.getD i default).daily_transactions =
        (((filterRecords records s e).filter
            (fun r => decide (dayOf r.date = dayOf ((out.getD i default).date)))).map
          Record.transaction_id).toFinset.card := by
  obtain ⟨hne, hout⟩ := compute_ok_inv records s e out hok
  subst hout
  intro i hi
  have hi2 : i < (dateRange (spanLo (filterRecords records s e))
      (spanHi (filterRecords records s e))).length := by
    rwa [length_aggregate] at hi
  rw [aggregate_getD _ i hi2]
  show ntransOn (filterRecords records s e) _ = _
  have halt : ∀ r ∈ filterRecords records s e, r.date % 1440 = 0 :=
    fun r hr => hal r (filterRecords_subset records s e r hr)
  rw [List.card_toFinset,
    filter_day_eq _ _ halt (aggregate_date_aligned records s e hne hal i hi2)]
  rfl

/-- C5 witness: two line items of the same transaction on the same day
count once: `daily_transactions = 1` while the lines number two. -/
theorem daily_transactions_distinct_witness :
    (∀ r ∈ ([⟨7, 0, 1, 10, 0⟩, ⟨7, 0, 2, 5, 0⟩] : List Record), r.date % 1440 = 0) ∧
    (compute_daily_sales [⟨7, 0, 1, 10, 0⟩, ⟨7, 0, 2, 5, 0⟩]
        DateArg.ofNone DateArg.ofNone =
      .ok [⟨0, 20, 1, 20, 20, "Thursday"⟩]) ∧
    (∀ i, i < ([⟨0, 20, 1, 20, 20, "Thursday"⟩] : List DailyRow).length →
      (([⟨0, 20, 1, 20, 20, "Thursday"⟩] : List DailyRow).getD i default).daily_transactions =
        (((filterRecords [⟨7, 0, 1, 10, 0⟩, ⟨7, 0, 2, 5, 0⟩]
            DateArg.ofNone DateArg.ofNone).filter
            (fun r => decide (dayOf r.date = dayOf
              ((([⟨0, 20, 1, 20, 20, "Thursday"⟩] : List DailyRow).getD i
                default).date)))).map Record.transaction_id).toFinset.card) :=
  ⟨by decide, by with_unfolding_all rfl,
   daily_transactions_distinct [⟨7, 0, 1, 10, 0⟩, ⟨7, 0, 2, 5, 0⟩]
     DateArg.ofNone DateArg.ofNone _ (by decide) (by with_unfolding_all rfl)⟩

/-- C6: any output row whose calendar day matches no post-filter record has
`daily_revenue = 0` and `daily_transactions = 0` (the reindex zero-fill). -/
theorem zero_fill_empty_day (records : List Record) (s e : DateArg)
    (out : List DailyRow)
    (hok : compute_daily_sales records s e = .ok out) :
    ∀ i, i < out.length →
      (∀ r ∈ filterRecords records s e,
        dayOf r.date ≠ dayOf ((out.getD i default).date)) →
      (out.getD i default).daily_revenue = 0 ∧
        (out.getD i default).daily_transactions = 0 := by
  obtain ⟨hne, hout⟩ := compute_ok_inv records s e out hok
  subst hout
  intro i hi hempty
  have hi2 : i < (dateRange (spanLo (filterRecords records s e))
      (spanHi (filterRecords records s e))).length := by
    rwa [length_aggregate] at hi
  rw [aggregate_getD _ i hi2] at hempty ⊢
  have hfil : (filterRecords records s e).filter
      (fun r => decide (r.date = (dateRange (spanLo (filterRecords records s e))
        (spanHi (filterRecords records s e))).getD i 0)) = [] := by
    rw [List.filter_eq_nil_iff]
    intro r hr
    simp only [decide_eq_true_eq]
    intro hrt
    exact hempty r hr (by rw [hrt])
  constructor
  · show (revSeq (filterRecords records s e)).getD i 0 = 0
    rw [revSeq_getD _ i hi2]
    unfold revenueOn
    rw [hfil]
    rfl
  · show ntransOn (filterRecords records s e) _ = 0
    unfold ntransOn
    rw [hfil]
    rfl

/-- C6 witness: in the spec's example the middle day (one day after the
epoch) has no transaction and is zero-filled. -/
theorem zero_fill_empty_day_witness :
    (compute_daily_sales [⟨1, 0, 2, 10, 0⟩, ⟨2, 2880, 1, 5, 1⟩]
        DateArg.ofNone DateArg.ofNone =
      .ok [⟨0, 20, 1, 20, 20, "Thursday"⟩, ⟨1440, 0, 0, 20, 10, "Friday"⟩,
           ⟨2880, 4, 1, 24, 8, "Saturday"⟩]) ∧
    ((1 : Nat) < ([⟨0, 20, 1, 20, 20, "Thursday"⟩, ⟨1440, 0, 0, 20, 10, "Friday"⟩,
        ⟨2880, 4, 1, 24, 8, "Saturday"⟩] : List DailyRow).length) ∧
    (∀ r ∈ filterRecords [⟨1, 0, 2, 10, 0⟩, ⟨2, 2880, 1, 5, 1⟩]
        DateArg.ofNone DateArg.ofNone,
      dayOf r.date ≠ dayOf ((([⟨0, 20, 1, 20, 20, "Thursday"⟩,
        ⟨1440, 0, 0, 20, 10, "Friday"⟩,
        ⟨2880, 4, 1, 24, 8, "Saturday"⟩] : List DailyRow).getD 1 default).date)) ∧
    ((([⟨0, 20, 1, 20, 20, "Thursday"⟩, ⟨1440, 0, 0, 20, 10, "Friday"⟩,
        ⟨2880, 4, 1, 24, 8, "Saturday"⟩] : List DailyRow).getD 1
      default).daily_revenue = 0 ∧
      (([⟨0, 20, 1, 20, 20, "Thursday"⟩, ⟨1440, 0, 0, 20, 10, "Friday"⟩,
          ⟨2880, 4, 1, 24, 8, "Saturday"⟩] : List DailyRow).getD 1
        default).daily_transactions = 0) :=
  ⟨by with_unfolding_all rfl, by decide, by with_unfolding_all decide,
   zero_fill_empty_day [⟨1, 0, 2, 10, 0⟩, ⟨2, 2880, 1, 5, 1⟩]
     DateArg.ofNone DateArg.ofNone _ (by with_unfolding_all rfl) 1 (by decide)
     (by with_unfolding_all decide)⟩

/-- C7: whenever the `start_date` / `end_date` bounds exclude every record,
`compute_daily_sales` fails with `EmptyDatasetError` instead of returning
output (in the source the failure is the exception `pd.date_range` raises on
the `NaT` min and max of the empty grouped index). -/
theorem empty_filter_error (records : List Record) (s e : DateArg)
    (h : filterRecords records s e = []) :
    compute_daily_sales records s e = .error .EmptyDatasetError := by
  unfold compute_daily_sales
  rw [if_pos (by simp [h])]

/-- C7 witness: a lower bound above the only record's date empties the set
and the call fails. -/
theorem empty_filter_error_witness :
    (filterRecords [⟨1, 2880, 1, 1, 0⟩] (DateArg.ofInt 10000) DateArg.ofNone = []) ∧
    compute_daily_sales [⟨1, 2880, 1, 1, 0⟩] (DateArg.ofInt 10000) DateArg.ofNone =
      .error .EmptyDatasetError :=
  ⟨by with_unfolding_all decide,
   empty_filter_error [⟨1, 2880, 1, 1, 0⟩] (DateArg.ofInt 10000) DateArg.ofNone
     (by with_unfolding_all decide)⟩

/-- C8: the source does NOT discard the time-of-day component before
aggregation.  Two records on the same calendar day (epoch day: 10:00, i.e.
minute 600, and 14:00, i.e. minute 840) should yield one daily row with
`daily_revenue = 15` and `daily_transactions = 2`; instead `groupby` keys on
the full timestamps and the daily reindex starting at minute 600 keeps only
the 10:00 group, silently dropping the 14:00 record: the single returned row
has `daily_revenue = 10` and `daily_transactions = 1`. -/
theorem time_of_day_not_discarded :
    dayOf (600 : Nat) = dayOf (840 : Nat) ∧
    compute_daily_sales [⟨1, 600, 1, 10, 0⟩, ⟨2, 840, 1, 5, 0⟩]
        DateArg.ofNone DateArg.ofNone =
      .ok [⟨600, 10, 1, 10, 10, "Thursday"⟩] :=
  ⟨rfl, by with_unfolding_all rfl⟩

/-- C9: the aggregator is deterministic: two invocations with identical
records and identical bounds return identical outputs (the embedding is a
pure function, so this is definitional; the source likewise touches no
external state and allocates a fresh frame each call). -/
theorem compute_deterministic (r1 r2 : List Record) (s1 s2 e1 e2 : DateArg)
    (hr : r1 = r2) (hs : s1 = s2) (he : e1 = e2) :
    compute_daily_sales r1 s1 e1 = compute_daily_sales r2 s2 e2 := by
  rw [hr, hs, he]

/-- C9 witness at a concrete invocation. -/
theorem compute_deterministic_witness :
    compute_daily_sales [⟨1, 0, 2, 10, 0⟩, ⟨2, 2880, 1, 5, 1⟩]
        DateArg.ofNone DateArg.ofNone =
      compute_daily_sales [⟨1, 0, 2, 10, 0⟩, ⟨2, 2880, 1, 5, 1⟩]
        DateArg.ofNone DateArg.ofNone :=
  compute_deterministic _ _ _ _ _ _ rfl rfl rfl

/-- C10: a falsy `start_date` / `end_date` (Python `None`, `0`, `""`) is
treated as absent — the bound filter is skipped entirely and every record
passes that bound — while a truthy bound is applied inclusively; the bounds
act only through this pre-aggregation filter. -/
theorem falsy_bounds_skipped (records : List Record) (s e : DateArg) :
    (s.isTruthy = false → e.isTruthy = false →
      filterRecords records s e = records) ∧
    (∀ r, r ∈ filterRecords records s e ↔
      r ∈ records ∧ (s.isTruthy = true → s.ts ≤ r.date) ∧
        (e.isTruthy = true → r.date ≤ e.ts)) ∧
    compute_daily_sales records s e =
      compute_daily_sales (filterRecords records s e) DateArg.ofNone DateArg.ofNone := by
  refine ⟨filterRecords_falsy records s e, mem_filterRecords records s e, ?_⟩
  conv_rhs => rw [compute_daily_sales]
  rw [filterRecords_falsy (filterRecords records s e) DateArg.ofNone DateArg.ofNone rfl rfl]
  rfl

/-- C10 witness: the falsy integer `0` and the empty string both skip their
bound, leaving the record list untouched. -/
theorem falsy_bounds_skipped_witness :
    ((DateArg.ofInt 0).isTruthy = false) ∧
    ((DateArg.ofStr "" 99).isTruthy = false) ∧
    filterRecords [⟨1, 2880, 1, 1, 0⟩] (DateArg.ofInt 0) (DateArg.ofStr "" 99) =
      [⟨1, 2880, 1, 1, 0⟩] :=
  ⟨by decide, by decide,
   (falsy_bounds_skipped [⟨1, 2880, 1, 1, 0⟩]
     (DateArg.ofInt 0) (DateArg.ofStr "" 99)).1 (by decide) (by decide)⟩

end UrbanMart
